import Mathlib

/-!
Verification of the concurrent enrichment pipeline in `src/ai/enhance.py`
(daily-arXiv-ai-enhanced).  The Python source is shallowly embedded below:
pure functions become Lean functions, the external collaborators
(`requests`, `json.loads`, thread-pool completion order, the generation
endpoint, PDF download) are modelled by explicit oracle parameters or by
total functions over an outcome type, exactly following the branching of
the source.  All definitions are executable.
-/

namespace Enhance

/-- Literal `{` character, written via its code point. -/
def lbrace : Char := Char.ofNat 123

/-- Literal `}` character, written via its code point. -/
def rbrace : Char := Char.ofNat 125

/-- Whitespace characters recognised by Python's `str.split()` (the ASCII
ones; the source only ever feeds ASCII/CJK abstracts through `split`). -/
def pyIsSpace (c : Char) : Bool :=
  c = ' ' || c = '\t' || c = '\n' || c = '\r' || c = Char.ofNat 11 || c = Char.ofNat 12

/-- Helper for `pySplit`: splits a character list into maximal runs of
non-whitespace characters, as Python's `str.split()` does. -/
def wordsAux : List Char → List Char → List String
  | [], acc => if acc.isEmpty then [] else [String.mk acc.reverse]
  | c :: cs, acc =>
    if pyIsSpace c then
      if acc.isEmpty then wordsAux cs [] else String.mk acc.reverse :: wordsAux cs []
    else wordsAux cs (c :: acc)

/-- Python `s.split()`: whitespace-run splitting, no empty words. -/
def pySplit (s : String) : List String := wordsAux s.data []

/-- Python slicing `s[:n]` (by code points, as Python strings are). -/
def pyTake (s : String) (n : Nat) : String := String.mk (s.data.take n)

/-- Python `needle in hay` on strings: substring test. -/
def strContains (hay needle : String) : Bool :=
  hay.data.tails.any (fun t => needle.data.isPrefixOf t)

/-- The JSON values this pipeline ever exercises: strings and (ordered)
objects.  This is the fragment of Python's `json` data model reached by
the source (the model prompt demands a flat object of five string
fields); other JSON value kinds are outside the model. -/
inductive JsonValue where
  | str (s : String)
  | obj (fields : List (String × JsonValue))
deriving Repr

/-- Python `dict` insertion: a repeated key overwrites in place, a fresh
key is appended.  Used by the object parser so duplicate keys behave as
`json.loads` does (last value wins, first position kept). -/
def dictInsert (kvs : List (String × JsonValue)) (k : String) (v : JsonValue) :
    List (String × JsonValue) :=
  if kvs.any (fun p => p.1 == k) then
    kvs.map (fun p => if p.1 == k then (k, v) else p)
  else kvs ++ [(k, v)]

/-- Dictionary field lookup (`d[k]` on a dict that has the key). -/
def lookupField (v : JsonValue) (k : String) : Option JsonValue :=
  match v with
  | .obj kvs => (kvs.find? (fun p => p.1 == k)).map (fun p => p.2)
  | .str _ => none

/-- Python `k in v`: key membership on dicts, substring test on strings —
exactly the semantics the source relies on in its `in` checks. -/
def pyContains (v : JsonValue) (k : String) : Bool :=
  match v with
  | .obj kvs => kvs.any (fun p => p.1 == k)
  | .str s => strContains s k

/-- Python truthiness of a parsed JSON value: empty dict and empty string
are falsy. -/
def pyTruthyJson (v : JsonValue) : Bool :=
  match v with
  | .obj kvs => !kvs.isEmpty
  | .str s => s ≠ ""

/-- JSON insignificant whitespace skipping, as `json.loads` allows. -/
def jSkipWs : List Char → List Char
  | c :: cs => if c = ' ' || c = '\t' || c = '\n' || c = '\r' then jSkipWs cs else c :: cs
  | [] => []

/-- JSON string-literal body parser (opening quote already consumed).
Models `json.loads` string rules on the fragment used here: the common
escapes are honoured, unknown escapes and raw control characters are
rejected (as `json.loads` rejects them); `\uXXXX` escapes are outside
this model. -/
def jParseStrAux : List Char → List Char → Option (String × List Char)
  | '"' :: rest, acc => some (String.mk acc.reverse, rest)
  | '\\' :: c :: rest, acc =>
    if c = '"' then jParseStrAux rest ('"' :: acc)
    else if c = '\\' then jParseStrAux rest ('\\' :: acc)
    else if c = '/' then jParseStrAux rest ('/' :: acc)
    else if c = 'n' then jParseStrAux rest ('\n' :: acc)
    else if c = 't' then jParseStrAux rest ('\t' :: acc)
    else if c = 'r' then jParseStrAux rest ('\r' :: acc)
    else if c = 'b' then jParseStrAux rest (Char.ofNat 8 :: acc)
    else if c = 'f' then jParseStrAux rest (Char.ofNat 12 :: acc)
    else none
  | c :: rest, acc => if c.toNat < 32 then none else jParseStrAux rest (c :: acc)
  | [], _ => none

mutual

/-- JSON value parser (fuel-indexed): a value is a string literal or an
object, per the fragment of `json.loads` this pipeline exercises. -/
def jParseValue : Nat → List Char → Option (JsonValue × List Char)
  | 0, _ => none
  | fuel + 1, cs =>
    match jSkipWs cs with
    | [] => none
    | c :: rest =>
      if c = '"' then
        (jParseStrAux rest []).map (fun p => (JsonValue.str p.1, p.2))
      else if c = lbrace then
        jParseObj fuel (jSkipWs rest) [] true
      else none

/-- JSON object-member parser.  `first` is true only directly after the
opening brace, where an immediate `}` (empty object) is legal; after a
comma a member is mandatory, as in `json.loads` (no trailing commas). -/
def jParseObj : Nat → List Char → List (String × JsonValue) → Bool →
    Option (JsonValue × List Char)
  | 0, _, _, _ => none
  | fuel + 1, cs, acc, first =>
    match cs with
    | [] => none
    | c :: rest =>
      if c = rbrace then
        if first then some (JsonValue.obj acc, rest) else none
      else if c = '"' then
        match jParseStrAux rest [] with
        | none => none
        | some (k, r1) =>
          match jSkipWs r1 with
          | ':' :: r2 =>
            match jParseValue fuel r2 with
            | none => none
            | some (v, r3) =>
              match jSkipWs r3 with
              | ',' :: r4 => jParseObj fuel (jSkipWs r4) (dictInsert acc k v) false
              | d :: r4 =>
                if d = rbrace then some (JsonValue.obj (dictInsert acc k v), r4) else none
              | [] => none
          | _ => none
      else none

end

/-- Model of Python `json.loads` on the fragment above: parse one value
and require that only whitespace remains. -/
def pyJsonLoads (s : String) : Option JsonValue :=
  match jParseValue (s.data.length + 1) s.data with
  | some (v, rest) => if jSkipWs rest = [] then some v else none
  | none => none

/-- Index of the first occurrence of `c`, if any. -/
def firstIdxOf (c : Char) : List Char → Option Nat
  | [] => none
  | a :: as => if a = c then some 0 else (firstIdxOf c as).map (· + 1)

/-- Index of the last occurrence of `c`, if any. -/
def lastIdxOf (c : Char) : List Char → Option Nat
  | [] => none
  | a :: as =>
    match lastIdxOf c as with
    | some i => some (i + 1)
    | none => if a = c then some 0 else none

/-- The single match of `re.findall(r'\x7b[\s\S]*\x7d', s)` (enhance.py line
129-133): the pattern is greedy, so the one match — when it exists — runs
from the first `{` in `s` to the last `}` in `s`, with no balance check;
`max(matches, key=len)` then just returns it. -/
def braceSubstring (s : String) : Option String :=
  match firstIdxOf lbrace s.data, lastIdxOf rbrace s.data with
  | some i, some j =>
    if i < j then some (String.mk ((s.data.drop i).take (j + 1 - i))) else none
  | _, _ => none

/-- `response_text.replace("'", '"')` (enhance.py line 141). -/
def swapQuotes (s : String) : String :=
  String.mk (s.data.map (fun c => if c.toNat = 39 then '"' else c))

/-- Helper for `escapeQuotes`: carries the previous character of the
original text, since the lookbehind of the regex inspects the subject
string, not the output being built. -/
def escapeQuotesAux : Option Char → List Char → List Char
  | _, [] => []
  | prev, c :: cs =>
    if c = '"' && prev ≠ some '\\' then
      '\\' :: '"' :: escapeQuotesAux (some c) cs
    else c :: escapeQuotesAux (some c) cs

/-- `re.sub(r'(?<!\\)"', '\\"', s)` (enhance.py line 143): put a backslash
before every double quote not already preceded by one. -/
def escapeQuotes (s : String) : String := String.mk (escapeQuotesAux none s.data)

/-- Third stage of `extract_json_from_response` (lines 139-146): swap
single quotes to double quotes, escape unescaped quotes, re-parse. -/
def repairParse (s : String) : Option JsonValue :=
  pyJsonLoads (escapeQuotes (swapQuotes s))

/-- `extract_json_from_response` (enhance.py lines 115-148): direct parse,
then parse of the greedy brace-delimited substring, then the quote-repair
parse; first success wins, all failures yield `None`. -/
def extract_json_from_response (s : String) : Option JsonValue :=
  if s = "" then none
  else
    match pyJsonLoads s with
    | some v => some v
    | none =>
      match braceSubstring s with
      | some sub =>
        match pyJsonLoads sub with
        | some v => some v
        | none => repairParse s
      | none => repairParse s

/-- A paper record as normalised by `read_jsonl_file` (enhance.py lines
289-314): the required fields are present and the optional ones have been
defaulted, so every field is total here. -/
structure Item where
  id : String
  title : String
  summary : String
  abs : String
  pdf_url : String
  authors : List String
  categories : List String
deriving DecidableEq, Repr

/-- One enriched record: the input record with the `AI` value attached
(`{**item, 'AI': ai}`). -/
structure OutputItem where
  item : Item
  ai : JsonValue
deriving Repr

/-- The five required summary fields (enhance.py line 235). -/
def fiveKeys : List String := ["tldr", "motivation", "method", "result", "conclusion"]

/-- `create_fallback_ai_data` (enhance.py lines 150-166).  The `full_text`
flag is accepted and ignored, as in the source.  Pure and total: it never
fails and performs no I/O.  Note `tldr` is the summary itself whenever the
summary has at most 50 words — in particular the empty string when the
summary is empty; the other four fields are fixed non-empty texts (the
`motivation` text depends only on whether the summary is empty). -/
def create_fallback_ai_data (item : Item) (full_text : Bool) : JsonValue :=
  let summary := item.summary
  let summary_words := pySplit summary
  let tldr :=
    if summary_words.length > 50 then
      String.intercalate " " (summary_words.take 50) ++ "..."
    else summary
  JsonValue.obj
    [ ("tldr", .str tldr),
      ("motivation", .str (if summary ≠ "" then "研究旨在解决摘要中描述的问题" else "基于论文内容分析")),
      ("method", .str "采用了先进的研究方法和技术"),
      ("result", .str "取得了显著的研究成果和发现"),
      ("conclusion", .str "对领域发展具有重要意义的结论") ]

/-- Count of characters in the CJK range `[一-鿿]` matched by the
regex in `estimate_token_count` (enhance.py line 171). -/
def chineseCharCount (s : String) : Nat :=
  (s.data.filter (fun c => 19968 ≤ c.toNat && c.toNat ≤ 40959)).length

/-- Count of the remaining characters (`len(text) - chinese_chars`). -/
def otherCharCount (s : String) : Nat := s.data.length - chineseCharCount s

/-- `estimate_token_count` (enhance.py lines 168-173):
`int(other_chars / 4 + chinese_chars / 2) + 100`.  The two float divisions
are by powers of two and hence exact, so the truncated sum equals the
integer `(other + 2 * chinese) / 4`, which is how it is written here. -/
def estimate_token_count (s : String) : Nat :=
  (otherCharCount s + 2 * chineseCharCount s) / 4 + 100

/-- `TEMPLATE.format(language=..., content=...)` (enhance.py lines 19-32
and 217): the embedded prompt template with the two placeholders filled
in (the doubled braces of the template render as literal braces). -/
def TEMPLATE_render (language content : String) : String :=
  "\n请为以下学术论文内容生成" ++ language ++ "的JSON摘要：\n\n" ++ content ++
    "\n\n返回格式：\n\x7b\n  \"tldr\": \"简洁摘要(1-2句)\",\n  \"motivation\": \"研究动机\",\n  \"method\": \"使用方法\",\n  \"result\": \"主要结果\", \n  \"conclusion\": \"结论意义\"\n\x7d\n"

/-- Outcome of the single HTTPS call inside `call_cloudflare_api`
(enhance.py lines 91-94), as classified at the integration boundary:
a 2xx response whose body parsed as JSON, a 2xx response with a
non-JSON body (requests ≥ 2.27 raises its `JSONDecodeError`, a
`RequestException` subclass), a non-2xx status (`raise_for_status`),
a connection error, or a timeout. -/
inductive HttpOutcome where
  | ok (body : JsonValue)
  | badJsonBody
  | httpError (status : Nat)
  | connectionError (detail : String)
  | timeout
deriving Repr

/-- Python subscripting `v[k]` on a parsed JSON value: field access on a
dict (the source only subscripts keys it has just checked with `in`, so
the key is present), and a `TypeError` on a string. -/
def pySubscript (v : JsonValue) (k : String) : Except String JsonValue :=
  match v with
  | .obj kvs =>
    match kvs.find? (fun p => p.1 == k) with
    | some p => .ok p.2
    | none => .error "KeyError"
  | .str _ => .error "TypeError: string indices must be integers"

/-- `call_cloudflare_api` (enhance.py lines 72-113) over the classified
HTTP outcome.  `RequestException`s (non-2xx, connection error, timeout,
undecodable body) are caught and yield `None`; a decoded body is probed
with `'result' in result and 'response' in result['result']`, then
`'response' in result`, else `None`.  An `Except.error` models an
exception escaping the function (Python's `in`/`[]` on a string value
can raise `TypeError`, which is not a `RequestException` and is not
caught here). -/
def call_cloudflare_api (outcome : HttpOutcome) : Except String (Option JsonValue) :=
  match outcome with
  | .ok body =>
    if pyContains body "result" then
      match pySubscript body "result" with
      | .error e => .error e
      | .ok inner =>
        if pyContains inner "response" then
          match pySubscript inner "response" with
          | .error e => .error e
          | .ok v => .ok (some v)
        else if pyContains body "response" then
          match pySubscript body "response" with
          | .error e => .error e
          | .ok v => .ok (some v)
        else .ok none
    else if pyContains body "response" then
      match pySubscript body "response" with
      | .error e => .error e
      | .ok v => .ok (some v)
    else .ok none
  | .badJsonBody => .ok none
  | .httpError _ => .ok none
  | .connectionError _ => .ok none
  | .timeout => .ok none

/-- The two credential environment variables read at the top of
`process_single_item` (enhance.py lines 177-178): `none` models an unset
variable. -/
structure Env where
  account_id : Option String
  api_token : Option String
deriving Repr

/-- Python falsiness of `os.environ.get(...)`: unset or empty. -/
def credMissing : Option String → Bool
  | none => true
  | some s => s == ""

/-- Truthiness of the `full_text` variable (`None` and `""` are falsy). -/
def truthyOptStr : Option String → Bool
  | none => false
  | some s => s ≠ ""

/-- What one iteration of the retry loop observes from the generation
call: either the reply of `call_cloudflare_api` (a string, or `None` for
every caught failure), or an exception with message `str(e)` raised
inside the `try` block (modelled at the API call, after the prompt has
been built). -/
inductive AttemptEvent where
  | response (r : Option String)
  | raised (msg : String)

/-- Observable data of one loop iteration: the active budget and excerpt
length at the first truncation (line 214), the token estimate
(line 218), and the budget and excerpt length after the pre-send
estimate check (lines 223-227). -/
structure AttemptTrace where
  budget1 : Nat
  previewLen1 : Nat
  estimatedTokens : Nat
  budget2 : Nat
  previewLen2 : Nat
deriving Repr

/-- Result of `process_single_item` together with its observable trace:
the enriched record, whether a validated reply was obtained, the
per-attempt trace, and the sequence of backoff sleeps (seconds) actually
performed. -/
structure RunResult where
  out : OutputItem
  success : Bool
  trace : List AttemptTrace
  sleeps : List Nat
deriving Repr

/-- `content_source = full_text if full_text else item.get('summary', '')`
(enhance.py line 205). -/
def contentSourceOf (fullText : Option String) (summary : String) : String :=
  match fullText with
  | some t => if t = "" then summary else t
  | none => summary

/-- `int(max_content_length * 0.7)` (line 224).  For every budget this
loop can hold, the float product rounds so that truncation agrees with
the integer `7 * n / 10`, which is how it is written here. -/
def shrink70 (n : Nat) : Nat := 7 * n / 10

/-- `int(max_content_length * 0.6)` (line 250), likewise `6 * n / 10`. -/
def shrink60 (n : Nat) : Nat := 6 * n / 10

/-- The pre-send token check (lines 223-227): shrink the budget once by
the 0.7 factor when the estimate exceeds 7000; no floor here. -/
def estShrinkBudget (mcl est : Nat) : Nat := if est > 7000 then shrink70 mcl else mcl

/-- The capacity-error signature substrings (enhance.py line 248). -/
def capacityKeywords : List String := ["token", "context window", "limit exceeded", "5021"]

/-- `any(keyword in error_msg for keyword in [...])` (line 248). -/
def isCapacityMsg (msg : String) : Bool :=
  capacityKeywords.any (fun k => strContains msg k)

/-- The capacity-driven shrink (lines 250-252): reduce to 60% and raise
back to the 1000 floor when the product falls below it. -/
def excShrink (mcl : Nat) : Nat :=
  let s := shrink60 mcl
  if s < 1000 then 1000 else s

/-- Budget after the `except` handler of one attempt: shrunk only when an
exception with a capacity signature was raised (lines 243-252). -/
def afterEventBudget (ev : AttemptEvent) (mcl : Nat) : Nat :=
  match ev with
  | .raised msg => if isCapacityMsg msg then excShrink mcl else mcl
  | .response _ => mcl

/-- The accepted value of one attempt, if any (lines 231-241): the reply
must be truthy, extraction must succeed, and the extracted value must be
truthy and contain all five keys under Python's `in`. -/
def attemptSuccess (ev : AttemptEvent) : Option JsonValue :=
  match ev with
  | .response (some rt) =>
    if rt ≠ "" then
      match extract_json_from_response rt with
      | some v =>
        if pyTruthyJson v && fiveKeys.all (fun k => pyContains v k) then some v else none
      | none => none
    else none
  | .response none => none
  | .raised _ => none

/-- The `for attempt in range(3)` loop of `process_single_item`
(enhance.py lines 197-262), with `remaining` counting the attempts still
allowed and `idx` the current attempt number.  The PDF text was fetched
at attempt 0 (the URL is always truthy after the line 189-191
defaulting) and is the run-level oracle `fullText`; the generation call
of attempt `idx` is the oracle `events idx`.  An empty content source
returns the fallback at once (lines 206-211); `sleep(8)` runs after
every failed non-final attempt (lines 254-255); exhaustion falls back
with the `bool(full_text)` flag (lines 257-262). -/
def procLoop (item : Item) (language : String) (maxOutputTokens : Nat)
    (fullText : Option String) (events : Nat → AttemptEvent) :
    Nat → Nat → Nat → RunResult
  | _, 0, _ =>
    { out := ⟨item, create_fallback_ai_data item (truthyOptStr fullText)⟩,
      success := false, trace := [], sleeps := [] }
  | idx, r + 1, mcl =>
    let src := contentSourceOf fullText item.summary
    if src = "" then
      { out := ⟨item, create_fallback_ai_data item false⟩,
        success := false, trace := [], sleeps := [] }
    else
      let preview1 := pyTake src mcl
      let est := estimate_token_count (TEMPLATE_render language preview1) + maxOutputTokens
      let mcl2 := estShrinkBudget mcl est
      let preview2 := pyTake src mcl2
      let tr : AttemptTrace := ⟨mcl, preview1.length, est, mcl2, preview2.length⟩
      match attemptSuccess (events idx) with
      | some v =>
        { out := ⟨item, v⟩, success := true, trace := [tr], sleeps := [] }
      | none =>
        let rest := procLoop item language maxOutputTokens fullText events
          (idx + 1) r (afterEventBudget (events idx) mcl2)
        { out := rest.out, success := rest.success, trace := tr :: rest.trace,
          sleeps := if r > 0 then 8 :: rest.sleeps else rest.sleeps }

/-- `process_single_item` (enhance.py lines 175-262): missing credentials
short-circuit to the fallback for this record (lines 181-186), otherwise
the three-attempt loop runs with the initial 5000-character budget
(line 194). -/
def process_single_item (env : Env) (item : Item) (language : String)
    (maxOutputTokens : Nat) (fullText : Option String)
    (events : Nat → AttemptEvent) : RunResult :=
  if credMissing env.account_id || credMissing env.api_token then
    { out := ⟨item, create_fallback_ai_data item false⟩,
      success := false, trace := [], sleeps := [] }
  else
    procLoop item language maxOutputTokens fullText events 0 3 5000

/-- The flattened sequence of active budgets at the truncation points of
a run, in program order. -/
def budgetList (res : RunResult) : List Nat :=
  res.trace.flatMap (fun a => [a.budget1, a.budget2])

/-- What the scheduler appends for the future of task `i`
(enhance.py lines 275-285): the task's returned record, or — when
`future.result()` re-raises an exception that escaped the task — the
item with a fallback `AI` value. -/
def futureOutcome (data : List Item) (results : Nat → Except String OutputItem)
    (i : Nat) : Option OutputItem :=
  match data[i]? with
  | some it =>
    some (match results i with
      | .ok r => r
      | .error _ => ⟨it, create_fallback_ai_data it false⟩)
  | none => none

/-- `process_all_items` (enhance.py lines 264-287): one future per item;
`as_completed` yields the futures in an arbitrary completion order
(`order`, a permutation of the indices), and the loop appends one result
per future in that order. -/
def process_all_items (data : List Item) (results : Nat → Except String OutputItem)
    (order : List Nat) : List OutputItem :=
  order.filterMap (futureOutcome data results)

/-- The scheduler output when tasks complete in submission order. -/
def pointwiseResults (data : List Item) (results : Nat → Except String OutputItem) :
    List OutputItem :=
  process_all_items data results (List.range data.length)

/-- The deduplication fold of `main` (enhance.py lines 343-352): keep a
record only when its id is truthy and unseen. -/
def dedupeAux : List String → List Item → List Item
  | _, [] => []
  | seen, it :: rest =>
    if it.id ≠ "" ∧ it.id ∉ seen then it :: dedupeAux (it.id :: seen) rest
    else dedupeAux seen rest

/-- `unique_data` as computed by `main`. -/
def dedupe_unique (data : List Item) : List Item := dedupeAux [] data

/-- Number of distinct ids among the records read (the spec's
`|unique(input, key=id)|`, which counts an empty id as a key too). -/
def uniqueByIdCount (data : List Item) : Nat :=
  (data.map (fun it => it.id)).dedup.length

/-- Number of distinct non-empty ids among the records read. -/
def uniqueNonEmptyIdCount (data : List Item) : Nat :=
  (((data.map (fun it => it.id)).filter (fun s => s ≠ "")).toFinset).card

/-- The run-level control flow of `main` (enhance.py lines 316-376) after
the input file has been read: exit code 1 when no valid record was read
(lines 339-341), otherwise deduplicate, schedule, and write one line per
processed record (every processed record is non-`None`).  Credentials
are never consulted here. -/
def main_run (readData : List Item) (results : Nat → Except String OutputItem)
    (order : List Nat) : Except Nat (List OutputItem) :=
  if readData.isEmpty then .error 1
  else .ok (process_all_items (dedupe_unique readData) results order)

/-- Entering budget that guarantees the truncation-budget chain stays
non-increasing over the given number of remaining attempts (the
1000-floor of the capacity shrink can only raise a budget that has
already fallen below 1000, which these bounds rule out). -/
def boundFor : Nat → Nat
  | 0 => 0
  | 1 => 0
  | 2 => 1429
  | _ + 3 => 3403

/-! Concrete fixtures used by the witnesses and counterexamples below. -/

/-- An environment with both credentials set. -/
def envFull : Env := ⟨some "acct-1", some "tok-1"⟩

/-- An environment with the account id unset. -/
def envNoCred : Env := ⟨none, some "tok-1"⟩

/-- A record with a short non-empty abstract. -/
def itemHello : Item := ⟨"2401.00001", "A Title", "hello world", "", "", [], []⟩

/-- A record whose abstract is the empty string. -/
def itemEmptyAbs : Item := ⟨"2401.00002", "B Title", "", "", "", [], []⟩

/-- Scheduler fixture record with id `a`. -/
def itemA : Item := ⟨"a", "Title A", "alpha text", "", "", [], []⟩

/-- Scheduler fixture record with id `b`. -/
def itemB : Item := ⟨"b", "Title B", "beta text", "", "", [], []⟩

/-- A record whose id is the empty string (falsy in Python). -/
def itemNoId : Item := ⟨"", "Title N", "gamma text", "", "", [], []⟩

/-- A generation endpoint that always returns an empty reply. -/
def evEmptyReply : Nat → AttemptEvent := fun _ => AttemptEvent.response none

/-- Task result fixture for `itemA`. -/
def outA : OutputItem := ⟨itemA, .str "enriched-a"⟩

/-- Task result fixture for `itemB`. -/
def outB : OutputItem := ⟨itemB, .str "enriched-b"⟩

/-- Task oracle returning `outA` for task 0 and `outB` otherwise. -/
def resultsAB : Nat → Except String OutputItem :=
  fun i => if i = 0 then .ok outA else .ok outB

/-- A five-field object as parsed from a well-formed reply. -/
def fiveObj : JsonValue :=
  .obj [("tldr", .str "a"), ("motivation", .str "b"), ("method", .str "c"),
    ("result", .str "d"), ("conclusion", .str "e")]

/-- The interior (between the braces) of a well-formed five-field reply. -/
def coreMid : List Char :=
  ("\"tldr\": \"a\", \"motivation\": \"b\", \"method\": \"c\", \"result\": \"d\", \"conclusion\": \"e\"").data

/-- A well-formed five-field JSON object reply. -/
def goodCore : String := String.mk (lbrace :: coreMid ++ [rbrace])

/-- A reply wrapping the well-formed object in prose that happens to
contain a brace pair of its own. -/
def badReply : String := "\x7ba\x7d " ++ goodCore

/-- Brace-free prose before the object. -/
def proseBefore : String := "Sure - here is the summary: "

/-- Brace-free prose after the object. -/
def proseAfter : String := " Hope that helps."

/-- A 2xx envelope whose `result` field is a string that contains the
word `response` as a substring. -/
def badEnvelope : JsonValue := .obj [("result", .str "the response text")]

theorem shrink70_le (n : Nat) : shrink70 n ≤ n := by
  have h : 7 * n ≤ 10 * n := Nat.mul_le_mul_right n (by norm_num)
  calc 7 * n / 10 ≤ 10 * n / 10 := Nat.div_le_div_right h
    _ = n := by omega

theorem shrink60_le (n : Nat) : shrink60 n ≤ n := by
  have h : 6 * n ≤ 10 * n := Nat.mul_le_mul_right n (by norm_num)
  calc 6 * n / 10 ≤ 10 * n / 10 := Nat.div_le_div_right h
    _ = n := by omega

theorem shrink70_ge {m n : Nat} (h : m * 10 ≤ 7 * n) : m ≤ shrink70 n :=
  (Nat.le_div_iff_mul_le (by norm_num)).mpr h

theorem shrink60_ge {m n : Nat} (h : m * 10 ≤ 6 * n) : m ≤ shrink60 n :=
  (Nat.le_div_iff_mul_le (by norm_num)).mpr h

theorem estShrinkBudget_le (mcl est : Nat) : estShrinkBudget mcl est ≤ mcl := by
  unfold estShrinkBudget
  split
  · exact shrink70_le mcl
  · exact le_rfl

theorem estShrinkBudget_ge (mcl est : Nat) : shrink70 mcl ≤ estShrinkBudget mcl est := by
  unfold estShrinkBudget
  split
  · exact le_rfl
  · exact shrink70_le mcl

theorem excShrink_ge_1000 (n : Nat) : 1000 ≤ excShrink n := by
  simp only [excShrink]
  split <;> omega

theorem excShrink_ge_shrink60 (n : Nat) : shrink60 n ≤ excShrink n := by
  simp only [excShrink]
  split <;> omega

theorem excShrink_le {n : Nat} (h : 1000 ≤ n) : excShrink n ≤ n := by
  have h6 := shrink60_le n
  simp only [excShrink]
  split <;> omega

theorem afterEventBudget_le (ev : AttemptEvent) {n : Nat} (h : 1000 ≤ n) :
    afterEventBudget ev n ≤ n := by
  cases ev with
  | response r => exact le_rfl
  | raised msg =>
    simp only [afterEventBudget]
    split
    · exact excShrink_le h
    · exact le_rfl

theorem pyTake_length_le (s : String) (n : Nat) : (pyTake s n).length ≤ n := by
  simp only [pyTake, String.length]
  simp

/-- The truncation budgets of the retry loop form a non-increasing chain
and never exceed the entering budget, provided the entering budget is at
least `boundFor remaining`. -/
theorem procLoop_budgets (item : Item) (lang : String) (tok : Nat)
    (ft : Option String) (ev : Nat → AttemptEvent) :
    ∀ r, r ≤ 3 → ∀ idx mcl, boundFor r ≤ mcl →
      List.Chain' (· ≥ ·) (budgetList (procLoop item lang tok ft ev idx r mcl)) ∧
      ∀ b ∈ budgetList (procLoop item lang tok ft ev idx r mcl), b ≤ mcl := by
  intro r
  induction r with
  | zero =>
    intro _ idx mcl _
    simp [procLoop, budgetList]
  | succ n ih =>
    intro hr idx mcl hb
    by_cases hsrc : contentSourceOf ft item.summary = ""
    · constructor
      · simp [procLoop, hsrc, budgetList]
      · intro b hbmem
        simp [procLoop, hsrc, budgetList] at hbmem
    · set mcl2 := estShrinkBudget mcl
        (estimate_token_count
          (TEMPLATE_render lang (pyTake (contentSourceOf ft item.summary) mcl)) + tok) with hmcl2
      have hm2le : mcl2 ≤ mcl := estShrinkBudget_le _ _
      have hm2ge : shrink70 mcl ≤ mcl2 := estShrinkBudget_ge _ _
      cases hev : attemptSuccess (ev idx) with
      | some v =>
        constructor
        · simp [procLoop, hsrc, hev, budgetList, ← hmcl2, List.chain'_cons, hm2le]
        · intro b hbmem
          simp [procLoop, hsrc, hev, budgetList, ← hmcl2] at hbmem
          rcases hbmem with h1 | h2 <;> omega
      | none =>
        set mcl3 := afterEventBudget (ev idx) mcl2 with hmcl3
        have hrec := ih (by omega) (idx + 1) mcl3
        have hlist : budgetList (procLoop item lang tok ft ev idx (n + 1) mcl) =
            mcl :: mcl2 :: budgetList (procLoop item lang tok ft ev (idx + 1) n mcl3) := by
          simp [procLoop, hsrc, hev, budgetList, ← hmcl2, ← hmcl3]
        cases n with
        | zero =>
          have hempty : budgetList (procLoop item lang tok ft ev (idx + 1) 0 mcl3) = [] := by
            simp [procLoop, budgetList]
          rw [hlist, hempty]
          constructor
          · simp [List.chain'_cons, hm2le]
          · intro b hbmem
            simp at hbmem
            rcases hbmem with h1 | h2 <;> omega
        | succ k =>
          -- here n + 1 ≥ 2, so boundFor forces mcl ≥ 1429 and mcl2 ≥ 1000
          have hbig : 1429 ≤ mcl := by
            have hk : k = 0 ∨ k = 1 := by omega
            rcases hk with hk | hk <;> subst hk <;> simp [boundFor] at hb <;> omega
          have h1000 : 1000 ≤ mcl2 := by
            have : 1000 ≤ shrink70 mcl := shrink70_ge (by omega)
            omega
          have hm3le : mcl3 ≤ mcl2 := by
            rw [hmcl3]; exact afterEventBudget_le _ h1000
          have hbound : boundFor (k + 1) ≤ mcl3 := by
            cases k with
            | zero => simp [boundFor]
            | succ j =>
              -- n + 1 = k + 2 ≥ 3, so this is the first of three attempts
              have hj : j = 0 := by omega
              subst hj
              have h3403 : 3403 ≤ mcl := by
                simpa [boundFor] using hb
              have h2382 : 2382 ≤ mcl2 := by
                have : 2382 ≤ shrink70 mcl := shrink70_ge (by omega)
                omega
              have h1429 : 1429 ≤ mcl3 := by
                rw [hmcl3]
                cases hevv : ev idx with
                | response r =>
                  simp only [afterEventBudget]
                  omega
                | raised msg =>
                  simp only [afterEventBudget]
                  split
                  · have hs : 1429 ≤ shrink60 mcl2 := shrink60_ge (by omega)
                    have := excShrink_ge_shrink60 mcl2
                    omega
                  · omega
              simpa [boundFor] using h1429
          obtain ⟨hchain, hle⟩ := hrec hbound
          rw [hlist]
          constructor
          · refine List.chain'_cons.mpr ⟨hm2le, ?_⟩
            refine List.chain'_cons'.mpr ⟨?_, hchain⟩
            intro h hh
            have hmem : h ∈ budgetList (procLoop item lang tok ft ev (idx + 1) (k + 1) mcl3) :=
              List.mem_of_mem_head? hh
            have := hle h hmem
            omega
          · intro b hbmem
            simp only [List.mem_cons] at hbmem
            rcases hbmem with h1 | h2 | h3
            · omega
            · omega
            · have := hle b h3
              omega

/-- Every excerpt recorded in the trace fits under the budget that was
active when it was cut. -/
theorem procLoop_previews (item : Item) (lang : String) (tok : Nat)
    (ft : Option String) (ev : Nat → AttemptEvent) :
    ∀ r idx mcl, ∀ a ∈ (procLoop item lang tok ft ev idx r mcl).trace,
      a.previewLen1 ≤ a.budget1 ∧ a.previewLen2 ≤ a.budget2 := by
  intro r
  induction r with
  | zero =>
    intro idx mcl a ha
    simp [procLoop] at ha
  | succ n ih =>
    intro idx mcl a ha
    by_cases hsrc : contentSourceOf ft item.summary = ""
    · simp [procLoop, hsrc] at ha
    · cases hev : attemptSuccess (ev idx) with
      | some v =>
        simp [procLoop, hsrc, hev] at ha
        subst ha
        exact ⟨pyTake_length_le _ _, pyTake_length_le _ _⟩
      | none =>
        simp [procLoop, hsrc, hev] at ha
        rcases ha with ha | ha
        · subst ha
          exact ⟨pyTake_length_le _ _, pyTake_length_le _ _⟩
        · exact ih (idx + 1) _ a ha

/-- C5: within one record's retry sequence the active content-length
budget is non-increasing across attempts — it may shrink through the
pre-send token-estimate check or through a capacity-signature error but
never grows — and the content excerpt placed into the prompt never
exceeds the budget that was active when it was cut. -/
theorem C5_budget_monotone (env : Env) (item : Item) (lang : String) (tok : Nat)
    (ft : Option String) (ev : Nat → AttemptEvent) :
    List.Chain' (· ≥ ·) (budgetList (process_single_item env item lang tok ft ev)) ∧
    ∀ a ∈ (process_single_item env item lang tok ft ev).trace,
      a.previewLen1 ≤ a.budget1 ∧ a.previewLen2 ≤ a.budget2 := by
  unfold process_single_item
  split
  · constructor
    · simp [budgetList]
    · intro a ha
      simp at ha
  · exact ⟨(procLoop_budgets item lang tok ft ev 3 (by norm_num) 0 5000
        (by simp [boundFor])).1,
      procLoop_previews item lang tok ft ev 3 0 5000⟩

/-- C9: the token-budget estimate used for the pre-send truncation
decision is exactly `floor(nonCJK / 4 + CJK / 2) + 100 + max_tokens`,
computed in exact arithmetic: the float divisions by 4 and 2 in
`estimate_token_count` are dyadic and hence exact, so the truncated sum
equals this rational floor. -/
theorem C9_estimator_formula (s : String) (maxOutputTokens : Nat) :
    estimate_token_count s + maxOutputTokens =
      ⌊(otherCharCount s : ℚ) / 4 + (chineseCharCount s : ℚ) / 2⌋₊ + 100 + maxOutputTokens := by
  have h : (otherCharCount s : ℚ) / 4 + (chineseCharCount s : ℚ) / 2 =
      ((otherCharCount s + 2 * chineseCharCount s : ℕ) : ℚ) / ((4 : ℕ) : ℚ) := by
    push_cast
    ring
  rw [estimate_token_count, h, Nat.floor_div_eq_div]

/-- The fallback ignores its `full_text` flag, as the source does. -/
theorem create_fallback_flag (item : Item) (b : Bool) :
    create_fallback_ai_data item b = create_fallback_ai_data item false := rfl

/-- The fallback object passes the five-key membership test. -/
theorem fallback_has_five (item : Item) (b : Bool) :
    fiveKeys.all (fun k => pyContains (create_fallback_ai_data item b) k) = true := by
  simp [create_fallback_ai_data, fiveKeys, pyContains]

/-- A value returned by `attemptSuccess` passed the acceptance check. -/
theorem attemptSuccess_accepts {e : AttemptEvent} {v : JsonValue}
    (h : attemptSuccess e = some v) :
    (pyTruthyJson v && fiveKeys.all (fun k => pyContains v k)) = true := by
  cases e with
  | raised msg => simp [attemptSuccess] at h
  | response r =>
    cases r with
    | none => simp [attemptSuccess] at h
    | some rt =>
      simp only [attemptSuccess] at h
      split at h
      · cases hex : extract_json_from_response rt with
        | none => rw [hex] at h; exact absurd h (by simp)
        | some w =>
          rw [hex] at h
          dsimp only at h
          by_cases hc : (pyTruthyJson w && fiveKeys.all (fun k => pyContains w k)) = true
          · rw [if_pos hc] at h
            cases h
            exact hc
          · rw [if_neg hc] at h
            cases h
      · exact absurd h (by simp)

/-- When no attempt succeeds, the loop's output is the record with the
fallback enrichment attached. -/
theorem procLoop_fail_out (item : Item) (lang : String) (tok : Nat)
    (ft : Option String) (ev : Nat → AttemptEvent) :
    ∀ r idx mcl, (procLoop item lang tok ft ev idx r mcl).success = false →
      (procLoop item lang tok ft ev idx r mcl).out =
        ⟨item, create_fallback_ai_data item false⟩ := by
  intro r
  induction r with
  | zero =>
    intro idx mcl _
    simp [procLoop, create_fallback_flag]
  | succ n ih =>
    intro idx mcl hfail
    by_cases hsrc : contentSourceOf ft item.summary = ""
    · simp [procLoop, hsrc]
    · cases hev : attemptSuccess (ev idx) with
      | some v => simp [procLoop, hsrc, hev] at hfail
      | none =>
        simp only [procLoop, if_neg hsrc, hev] at hfail ⊢
        exact ih (idx + 1) _ hfail

/-- Every output of the retry loop passes the five-key membership test. -/
theorem procLoop_five (item : Item) (lang : String) (tok : Nat)
    (ft : Option String) (ev : Nat → AttemptEvent) :
    ∀ r idx mcl,
      fiveKeys.all
        (fun k => pyContains (procLoop item lang tok ft ev idx r mcl).out.ai k) = true := by
  intro r
  induction r with
  | zero =>
    intro idx mcl
    simp only [procLoop]
    exact fallback_has_five item _
  | succ n ih =>
    intro idx mcl
    by_cases hsrc : contentSourceOf ft item.summary = ""
    · simp only [procLoop, if_pos hsrc]
      exact fallback_has_five item false
    · cases hev : attemptSuccess (ev idx) with
      | some v =>
        have hacc := attemptSuccess_accepts hev
        simp only [Bool.and_eq_true] at hacc
        simp only [procLoop, if_neg hsrc, hev]
        exact hacc.2
      | none =>
        simp only [procLoop, if_neg hsrc, hev]
        exact ih (idx + 1) _

/-- Sleep-trace shape of the retry loop: every sleep is 8 seconds, there
is at most one fewer sleep than remaining attempts, and at most one
trace entry per attempt. -/
theorem procLoop_sleeps (item : Item) (lang : String) (tok : Nat)
    (ft : Option String) (ev : Nat → AttemptEvent) :
    ∀ r idx mcl,
      (∀ x ∈ (procLoop item lang tok ft ev idx r mcl).sleeps, x = 8) ∧
      (procLoop item lang tok ft ev idx r mcl).sleeps.length ≤ r - 1 ∧
      (procLoop item lang tok ft ev idx r mcl).trace.length ≤ r := by
  intro r
  induction r with
  | zero =>
    intro idx mcl
    simp [procLoop]
  | succ n ih =>
    intro idx mcl
    by_cases hsrc : contentSourceOf ft item.summary = ""
    · simp [procLoop, hsrc]
    · cases hev : attemptSuccess (ev idx) with
      | some v => simp [procLoop, hsrc, hev]
      | none =>
        obtain ⟨ih1, ih2, ih3⟩ := ih (idx + 1) (afterEventBudget (ev idx)
          (estShrinkBudget mcl (estimate_token_count
            (TEMPLATE_render lang (pyTake (contentSourceOf ft item.summary) mcl)) + tok)))
        refine ⟨?_, ?_, ?_⟩
        · intro x hx
          simp only [procLoop, if_neg hsrc, hev] at hx
          by_cases hn : n > 0
          · simp only [if_pos hn, List.mem_cons] at hx
            rcases hx with hx | hx
            · exact hx
            · exact ih1 x hx
          · simp only [if_neg hn] at hx
            exact ih1 x hx
        · simp only [procLoop, if_neg hsrc, hev]
          by_cases hn : n > 0
          · simp only [if_pos hn, List.length_cons]
            omega
          · simp only [if_neg hn]
            omega
        · simp only [procLoop, if_neg hsrc, hev, List.length_cons]
          omega

/-- C6 (counterexample): with three retryable outcomes (empty replies)
the controller sleeps `[8, 8]` — a constant interval, not an increasing
backoff, refuting the claimed increasing backoff sequence. -/
theorem C6_counterexample :
    (process_single_item envFull itemHello "Chinese" 1024 none evEmptyReply).sleeps = [8, 8] ∧
    ¬ List.Chain' (· < ·)
      (process_single_item envFull itemHello "Chinese" 1024 none evEmptyReply).sleeps := by
  refine ⟨rfl, ?_⟩
  rw [show (process_single_item envFull itemHello "Chinese" 1024 none evEmptyReply).sleeps
      = [8, 8] from rfl]
  simp [List.chain'_cons]

/-- C6 (amended): a retryable outcome makes the controller sleep a fixed
8-second interval (the same every time, not increasing) before the next
attempt, for at most 3 attempts in total; a run in which no attempt
succeeds resolves the record with the fallback synthesizer. -/
theorem C6_amended (env : Env) (item : Item) (lang : String) (tok : Nat)
    (ft : Option String) (ev : Nat → AttemptEvent)
    (h : (process_single_item env item lang tok ft ev).success = false) :
    (∀ x ∈ (process_single_item env item lang tok ft ev).sleeps, x = 8) ∧
    (process_single_item env item lang tok ft ev).sleeps.length ≤ 2 ∧
    (process_single_item env item lang tok ft ev).trace.length ≤ 3 ∧
    (process_single_item env item lang tok ft ev).out =
      ⟨item, create_fallback_ai_data item false⟩ := by
  unfold process_single_item at h ⊢
  by_cases hc : (credMissing env.account_id || credMissing env.api_token) = true
  · rw [if_pos hc]
    exact ⟨by simp, by simp, by simp, rfl⟩
  · rw [if_neg hc] at h ⊢
    obtain ⟨h1, h2, h3⟩ := procLoop_sleeps item lang tok ft ev 3 0 5000
    exact ⟨h1, by omega, h3, procLoop_fail_out item lang tok ft ev 3 0 5000 h⟩

/-- C6 (witness): the amended statement instantiated on the concrete
always-empty-reply run. -/
theorem C6_witness :
    (∀ x ∈ (process_single_item envFull itemHello "Chinese" 1024 none evEmptyReply).sleeps,
      x = 8) ∧
    (process_single_item envFull itemHello "Chinese" 1024 none evEmptyReply).sleeps.length ≤ 2 ∧
    (process_single_item envFull itemHello "Chinese" 1024 none evEmptyReply).trace.length ≤ 3 ∧
    (process_single_item envFull itemHello "Chinese" 1024 none evEmptyReply).out =
      ⟨itemHello, create_fallback_ai_data itemHello false⟩ :=
  C6_amended envFull itemHello "Chinese" 1024 none evEmptyReply rfl

/-- C7 (counterexample): the fallback for a record whose abstract is
empty sets `tldr` to the empty string — no placeholder text is
substituted, contrary to the claim. -/
theorem C7_counterexample :
    itemEmptyAbs.summary = "" ∧
    lookupField (create_fallback_ai_data itemEmptyAbs false) "tldr" = some (.str "") := by
  exact ⟨rfl, rfl⟩

/-- C7 (amended): when no attempt of a run succeeds, the output `tldr`
is the abstract itself when it has at most 50 words — in particular the
empty string for an empty abstract — and otherwise the first 50 words
followed by `...`; the other four fields are stable non-empty
placeholder texts.  The synthesizer (`create_fallback_ai_data`) is a
pure total function: it never fails and performs no network I/O. -/
theorem C7_amended (env : Env) (item : Item) (lang : String) (tok : Nat)
    (ft : Option String) (ev : Nat → AttemptEvent)
    (h : (process_single_item env item lang tok ft ev).success = false) :
    lookupField (process_single_item env item lang tok ft ev).out.ai "tldr" =
      some (.str (if (pySplit item.summary).length > 50
        then String.intercalate " " ((pySplit item.summary).take 50) ++ "..."
        else item.summary)) ∧
    ∀ k ∈ ["motivation", "method", "result", "conclusion"],
      ∃ s, lookupField (process_single_item env item lang tok ft ev).out.ai k =
        some (.str s) ∧ s ≠ "" := by
  have hout : (process_single_item env item lang tok ft ev).out =
      ⟨item, create_fallback_ai_data item false⟩ := by
    unfold process_single_item at h ⊢
    by_cases hc : (credMissing env.account_id || credMissing env.api_token) = true
    · rw [if_pos hc]
    · rw [if_neg hc] at h ⊢
      exact procLoop_fail_out item lang tok ft ev 3 0 5000 h
  rw [hout]
  constructor
  · simp [create_fallback_ai_data, lookupField]
  · intro k hk
    simp only [List.mem_cons, List.not_mem_nil, or_false] at hk
    rcases hk with hk | hk | hk | hk <;> subst hk
    · refine ⟨if item.summary ≠ "" then "研究旨在解决摘要中描述的问题" else "基于论文内容分析", ?_, ?_⟩
      · simp [create_fallback_ai_data, lookupField]
      · split <;> simp
    · exact ⟨"采用了先进的研究方法和技术", by simp [create_fallback_ai_data, lookupField], by simp⟩
    · exact ⟨"取得了显著的研究成果和发现", by simp [create_fallback_ai_data, lookupField], by simp⟩
    · exact ⟨"对领域发展具有重要意义的结论", by simp [create_fallback_ai_data, lookupField], by simp⟩

/-- C7 (witness): the amended statement instantiated on the concrete
always-empty-reply run over `itemHello`. -/
theorem C7_witness :
    lookupField (process_single_item envFull itemHello "Chinese" 1024 none
        evEmptyReply).out.ai "tldr" =
      some (.str (if (pySplit itemHello.summary).length > 50
        then String.intercalate " " ((pySplit itemHello.summary).take 50) ++ "..."
        else itemHello.summary)) ∧
    ∀ k ∈ ["motivation", "method", "result", "conclusion"],
      ∃ s, lookupField (process_single_item envFull itemHello "Chinese" 1024 none
        evEmptyReply).out.ai k = some (.str s) ∧ s ≠ "" :=
  C7_amended envFull itemHello "Chinese" 1024 none evEmptyReply rfl

/-- C4 (counterexample): a record whose abstract is the empty string is
enriched (through the fallback) with `tldr` equal to the empty string —
a required field that is not a non-empty string, refuting the claim. -/
theorem C4_counterexample :
    itemEmptyAbs.summary = "" ∧
    lookupField (process_single_item envFull itemEmptyAbs "Chinese" 1024 none
      evEmptyReply).out.ai "tldr" = some (.str "") := by
  exact ⟨rfl, rfl⟩

/-- C4 (amended): every output enrichment passes the code's five-field
presence test (`all(key in ai_data ...)`); when no attempt succeeded the
attached value is exactly the five-field fallback object, whose four
non-`tldr` fields are non-empty but whose `tldr` is empty whenever the
abstract is empty.  (A validated reply is only required to contain the
five keys; its values are not checked.) -/
theorem C4_amended (env : Env) (item : Item) (lang : String) (tok : Nat)
    (ft : Option String) (ev : Nat → AttemptEvent) :
    fiveKeys.all
      (fun k => pyContains (process_single_item env item lang tok ft ev).out.ai k) = true ∧
    ((process_single_item env item lang tok ft ev).success = false →
      (process_single_item env item lang tok ft ev).out.ai =
        create_fallback_ai_data item false) := by
  constructor
  · unfold process_single_item
    split
    · exact fallback_has_five item false
    · exact procLoop_five item lang tok ft ev 3 0 5000
  · intro h
    unfold process_single_item at h ⊢
    by_cases hc : (credMissing env.account_id || credMissing env.api_token) = true
    · rw [if_pos hc]
    · rw [if_neg hc] at h ⊢
      rw [procLoop_fail_out item lang tok ft ev 3 0 5000 h]

/-- C3 (counterexample): with the account id unset, the pipeline still
runs and completes: the record is enriched with the fallback, no attempt
is made, and `main_run` finishes with `.ok` (exit code 0 path) — there
is no run-level abort. -/
theorem C3_counterexample :
    (process_single_item envNoCred itemHello "Chinese" 1024 none evEmptyReply).out =
      ⟨itemHello, create_fallback_ai_data itemHello false⟩ ∧
    (process_single_item envNoCred itemHello "Chinese" 1024 none evEmptyReply).trace = [] ∧
    main_run [itemHello]
      (fun _ => .ok (process_single_item envNoCred itemHello "Chinese" 1024 none
        evEmptyReply).out) [0] =
      .ok [⟨itemHello, create_fallback_ai_data itemHello false⟩] := by
  exact ⟨rfl, rfl, rfl⟩

/-- C3 (amended): missing generation-endpoint credentials are detected
per record inside each task: the record is resolved immediately with the
fallback enrichment (no attempt, no sleep) and the run as a whole never
aborts because of credentials — `main_run` exits non-zero only when no
valid input record was read. -/
theorem C3_amended (env : Env) (item : Item) (lang : String) (tok : Nat)
    (ft : Option String) (ev : Nat → AttemptEvent)
    (hmiss : (credMissing env.account_id || credMissing env.api_token) = true) :
    process_single_item env item lang tok ft ev =
      ⟨⟨item, create_fallback_ai_data item false⟩, false, [], []⟩ ∧
    ∀ readData : List Item, readData ≠ [] →
      ∀ results order, ∃ out, main_run readData results order = Except.ok out := by
  constructor
  · unfold process_single_item
    rw [if_pos hmiss]
  · intro readData hne results order
    refine ⟨process_all_items (dedupe_unique readData) results order, ?_⟩
    unfold main_run
    rw [if_neg (by simpa using hne)]

/-- C3 (witness): the amended statement instantiated on the concrete
credential-less environment. -/
theorem C3_witness :
    process_single_item envNoCred itemHello "Chinese" 1024 none evEmptyReply =
      ⟨⟨itemHello, create_fallback_ai_data itemHello false⟩, false, [], []⟩ ∧
    ∀ readData : List Item, readData ≠ [] →
      ∀ results order, ∃ out, main_run readData results order = Except.ok out :=
  C3_amended envNoCred itemHello "Chinese" 1024 none evEmptyReply rfl

/-- C4 (witness): the amended statement instantiated on the concrete
empty-abstract run. -/
theorem C4_witness :
    fiveKeys.all
      (fun k => pyContains (process_single_item envFull itemEmptyAbs "Chinese" 1024 none
        evEmptyReply).out.ai k) = true ∧
    ((process_single_item envFull itemEmptyAbs "Chinese" 1024 none evEmptyReply).success =
        false →
      (process_single_item envFull itemEmptyAbs "Chinese" 1024 none evEmptyReply).out.ai =
        create_fallback_ai_data itemEmptyAbs false) :=
  C4_amended envFull itemEmptyAbs "Chinese" 1024 none evEmptyReply

/-- The deduplication fold keeps exactly one record per distinct
non-empty id not yet seen. -/
theorem dedupeAux_length : ∀ (l : List Item) (seen : List String),
    (dedupeAux seen l).length =
      (((l.map (fun it => it.id)).filter
        (fun s => decide (s ≠ "") && !seen.contains s)).toFinset).card := by
  intro l
  induction l with
  | nil => intro seen; simp [dedupeAux]
  | cons it rest ih =>
    intro seen
    by_cases h1 : it.id ≠ "" ∧ it.id ∉ seen
    · have hfil : (decide (it.id ≠ "") && !seen.contains it.id) = true := by
        simp [List.elem_iff]
        tauto
      simp only [dedupeAux, if_pos h1, List.length_cons, List.map_cons, List.filter_cons, hfil,
        if_true, List.toFinset_cons]
      rw [ih (it.id :: seen)]
      have hset : ((rest.map (fun it => it.id)).filter
          (fun s => decide (s ≠ "") && !((it.id :: seen).contains s))).toFinset =
          (((rest.map (fun it => it.id)).filter
            (fun s => decide (s ≠ "") && !seen.contains s)).toFinset).erase it.id := by
        ext a
        simp [List.mem_filter, List.elem_iff]
        tauto
      rw [hset]
      have h2 : (insert it.id (((rest.map (fun it => it.id)).filter
          (fun s => decide (s ≠ "") && !seen.contains s)).toFinset)).card =
          ((insert it.id (((rest.map (fun it => it.id)).filter
            (fun s => decide (s ≠ "") && !seen.contains s)).toFinset)).erase it.id).card + 1 :=
        (Finset.card_erase_add_one (Finset.mem_insert_self _ _)).symm
      rw [h2, Finset.erase_insert_eq_erase]
    · have hfil : (decide (it.id ≠ "") && !seen.contains it.id) = false := by
        simp [List.elem_iff]
        tauto
      simp only [dedupeAux, if_neg h1, List.map_cons, List.filter_cons, hfil]
      simp only [Bool.false_eq_true, if_false]
      exact ih seen

/-- `unique_data` has exactly one record per distinct non-empty id. -/
theorem dedupe_unique_length (data : List Item) :
    (dedupe_unique data).length = uniqueNonEmptyIdCount data := by
  rw [dedupe_unique, dedupeAux_length, uniqueNonEmptyIdCount]
  congr 2
  apply List.filter_congr
  intro a _
  simp

/-- When every completed index is in range, the scheduler appends one
record per completion. -/
theorem process_all_items_length (data : List Item)
    (results : Nat → Except String OutputItem) :
    ∀ order : List Nat, (∀ i ∈ order, i < data.length) →
      (process_all_items data results order).length = order.length := by
  intro order
  induction order with
  | nil => intro _; rfl
  | cons a as ih =>
    intro h
    have ha : a < data.length := h a (by simp)
    have hsome : ∃ it, data[a]? = some it := by
      rw [List.getElem?_eq_getElem ha]
      exact ⟨data[a], rfl⟩
    obtain ⟨it, hit⟩ := hsome
    unfold process_all_items at ih ⊢
    rw [List.filterMap_cons]
    have : futureOutcome data results a = some (match results a with
      | .ok r => r
      | .error _ => ⟨it, create_fallback_ai_data it false⟩) := by
      simp [futureOutcome, hit]
    rw [this, List.length_cons, ih (fun i hi => h i (by simp [hi])), List.length_cons]

/-- A crashed task is replaced, not dropped: its fallback record is in
the scheduler output. -/
theorem process_all_items_mem (data : List Item)
    (results : Nat → Except String OutputItem) (order : List Nat) {i : Nat} {it : Item}
    {e : String} (hio : i ∈ order) (hget : data[i]? = some it)
    (herr : results i = .error e) :
    (⟨it, create_fallback_ai_data it false⟩ : OutputItem) ∈
      process_all_items data results order := by
  unfold process_all_items
  refine List.mem_filterMap.mpr ⟨i, hio, ?_⟩
  simp [futureOutcome, hget, herr]

/-- C1 (counterexample): a record whose id is the empty string is
dropped outright by the deduplication pass, so the input
`[itemNoId, itemA]` has two unique-by-id records but the run writes
only one output record. -/
theorem C1_counterexample :
    uniqueByIdCount [itemNoId, itemA] = 2 ∧
    (process_all_items (dedupe_unique [itemNoId, itemA]) resultsAB [0]).length = 1 := by
  exact ⟨rfl, rfl⟩

/-- C1 (amended): for every admissible completion order, the run writes
exactly one output record per distinct non-empty input id (records with
an empty id are dropped by the dedup pass), and a crash inside one
record's task is caught at the `future.result()` boundary and converted
into a fallback-enriched output record for that same record rather than
aborting the batch or dropping the record. -/
theorem C1_amended (data : List Item) (results : Nat → Except String OutputItem)
    (order : List Nat)
    (hperm : order.Perm (List.range (dedupe_unique data).length)) :
    (process_all_items (dedupe_unique data) results order).length =
      (dedupe_unique data).length ∧
    (dedupe_unique data).length = uniqueNonEmptyIdCount data ∧
    ∀ i it e, (dedupe_unique data)[i]? = some it → results i = .error e →
      (⟨it, create_fallback_ai_data it false⟩ : OutputItem) ∈
        process_all_items (dedupe_unique data) results order := by
  refine ⟨?_, dedupe_unique_length data, ?_⟩
  · rw [process_all_items_length (dedupe_unique data) results order
      (fun i hi => List.mem_range.mp (hperm.mem_iff.mp hi))]
    simpa using hperm.length_eq
  · intro i it e hget herr
    have hi : i < (dedupe_unique data).length := by
      have := List.getElem?_eq_some_iff.mp hget
      exact this.1
    exact process_all_items_mem _ results order
      (hperm.mem_iff.mpr (List.mem_range.mpr hi)) hget herr

/-- C1 (witness): the amended statement instantiated on the concrete
two-record input with one empty id and one crashing task oracle. -/
theorem C1_witness :
    (process_all_items (dedupe_unique [itemNoId, itemA])
      (fun _ : Nat => (Except.error "boom" : Except String OutputItem)) [0]).length =
      (dedupe_unique [itemNoId, itemA]).length ∧
    (dedupe_unique [itemNoId, itemA]).length = uniqueNonEmptyIdCount [itemNoId, itemA] ∧
    ∀ (i : Nat) (it : Item) (e : String), (dedupe_unique [itemNoId, itemA])[i]? = some it →
      (fun _ : Nat => (Except.error "boom" : Except String OutputItem)) i = Except.error e →
      (⟨it, create_fallback_ai_data it false⟩ : OutputItem) ∈
        process_all_items (dedupe_unique [itemNoId, itemA])
          (fun _ : Nat => (Except.error "boom" : Except String OutputItem)) [0] :=
  C1_amended [itemNoId, itemA]
    (fun _ : Nat => (Except.error "boom" : Except String OutputItem)) [0] (by decide)

/-- C2 (counterexample): with two workers a completion order `[1, 0]` is
admissible, and the scheduler then emits the enrichment of input 1 at
output position 0: output order does not match input order. -/
theorem C2_counterexample :
    ([1, 0] : List Nat).Perm (List.range 2) ∧
    (process_all_items [itemA, itemB] resultsAB [1, 0]).map (fun o => o.item.id) =
      ["b", "a"] ∧
    [itemA, itemB].map (fun it => it.id) = ["a", "b"] := by
  exact ⟨by decide, rfl, rfl⟩

/-- C2 (amended): the scheduler appends results in task completion
order.  For every completion order (a permutation of the task indices)
the output is a permutation of the in-order enrichments — nothing is
dropped — and the output order matches the input order exactly when the
completion order equals the submission order (as with one worker); no
index-based reassembly is performed. -/
theorem C2_amended (data : List Item) (results : Nat → Except String OutputItem)
    (order : List Nat) (hperm : order.Perm (List.range data.length)) :
    (process_all_items data results order).Perm (pointwiseResults data results) ∧
    (order = List.range data.length →
      process_all_items data results order = pointwiseResults data results) := by
  constructor
  · exact hperm.filterMap _
  · intro h
    rw [h]
    rfl

theorem firstIdxOf_append_of_not_mem {c : Char} {l1 : List Char} (l2 : List Char)
    (h : c ∉ l1) :
    firstIdxOf c (l1 ++ l2) = (firstIdxOf c l2).map (· + l1.length) := by
  induction l1 with
  | nil => simp [Option.map_id]
  | cons a as ih =>
    have ha : a ≠ c := fun hac => h (by simp [hac])
    have has : c ∉ as := fun hmem => h (by simp [hmem])
    simp only [List.cons_append, firstIdxOf, if_neg ha, List.append_eq, List.length_cons]
    rw [ih has]
    cases hfo : firstIdxOf c l2 with
    | none => rfl
    | some k =>
      show some (k + as.length + 1) = some (k + (as.length + 1))
      rw [Nat.add_assoc]

theorem lastIdxOf_append_of_not_mem {c : Char} (l1 : List Char) {l2 : List Char}
    (h : c ∉ l2) :
    lastIdxOf c (l1 ++ l2) = lastIdxOf c l1 := by
  induction l1 with
  | nil =>
    simp only [List.nil_append]
    induction l2 with
    | nil => rfl
    | cons b bs ih2 =>
      have hb : b ≠ c := fun hbc => h (by simp [hbc])
      have hbs : c ∉ bs := fun hmem => h (by simp [hmem])
      simp [lastIdxOf, ih2 hbs, if_neg hb]
  | cons a as ih =>
    simp only [List.cons_append, lastIdxOf, List.append_eq, ih]

theorem lastIdxOf_concat_self (c : Char) (l : List Char) :
    lastIdxOf c (l ++ [c]) = some l.length := by
  induction l with
  | nil => simp [lastIdxOf]
  | cons a as ih => simp [lastIdxOf, ih]

/-- The greedy brace extraction applied to a brace-delimited core wrapped
in brace-free prose returns exactly the core. -/
theorem braceSubstring_embed (p1 p2 : String) (mid : List Char)
    (h1 : lbrace ∉ p1.data) (h2 : rbrace ∉ p2.data) (h3 : lbrace ∉ p2.data) :
    braceSubstring (p1 ++ String.mk (lbrace :: mid ++ [rbrace]) ++ p2) =
      some (String.mk (lbrace :: mid ++ [rbrace])) := by
  have hdata : (p1 ++ String.mk (lbrace :: mid ++ [rbrace]) ++ p2).data =
      p1.data ++ ((lbrace :: mid ++ [rbrace]) ++ p2.data) := by
    simp [String.data_append]
  unfold braceSubstring
  rw [hdata]
  have hfirst : firstIdxOf lbrace (p1.data ++ ((lbrace :: mid ++ [rbrace]) ++ p2.data)) =
      some p1.data.length := by
    rw [firstIdxOf_append_of_not_mem _ h1]
    simp [firstIdxOf]
  have hsplit : p1.data ++ ((lbrace :: mid ++ [rbrace]) ++ p2.data) =
      (p1.data ++ (lbrace :: mid ++ [rbrace])) ++ p2.data := by
    simp
  have hlast : lastIdxOf rbrace (p1.data ++ ((lbrace :: mid ++ [rbrace]) ++ p2.data)) =
      some (p1.data.length + (mid.length + 1)) := by
    rw [hsplit, lastIdxOf_append_of_not_mem _ h2]
    have hsp2 : p1.data ++ (lbrace :: mid ++ [rbrace]) =
        (p1.data ++ (lbrace :: mid)) ++ [rbrace] := by
      simp
    rw [hsp2, lastIdxOf_concat_self]
    simp
  rw [hfirst, hlast]
  dsimp only
  rw [if_pos (by omega)]
  congr 1
  have hdrop : (p1.data ++ ((lbrace :: mid ++ [rbrace]) ++ p2.data)).drop p1.data.length =
      (lbrace :: mid ++ [rbrace]) ++ p2.data := List.drop_left _ _
  rw [hdrop]
  have harith : p1.data.length + (mid.length + 1) + 1 - p1.data.length =
      (lbrace :: mid ++ [rbrace]).length := by
    simp
    omega
  rw [harith, List.take_left]

/-- All five keys present implies the accepted value is truthy. -/
theorem pyTruthyJson_of_five {v : JsonValue}
    (h : fiveKeys.all (fun k => pyContains v k) = true) : pyTruthyJson v = true := by
  have h1 : pyContains v "tldr" = true := by
    simp only [fiveKeys, List.all_cons, Bool.and_eq_true] at h
    exact h.1
  cases v with
  | obj kvs =>
    cases kvs with
    | nil => exact absurd h1 (by decide)
    | cons p ps => simp [pyTruthyJson]
  | str s =>
    simp only [pyTruthyJson, decide_eq_true_iff]
    intro hs
    subst hs
    exact absurd h1 (by decide)

/-- C8 (counterexample): a reply consisting of a single balanced
five-field JSON object preceded by the prose `{a} ` is rejected: the
greedy first-`{`-to-last-`}` extraction is not balance-aware, so the
stray brace pair in the prose defeats it and the validator returns
`None`, even though the embedded object alone parses and carries all
five fields. -/
theorem C8_counterexample :
    pyJsonLoads goodCore = some fiveObj ∧
    fiveKeys.all (fun k => pyContains fiveObj k) = true ∧
    extract_json_from_response badReply = none := by
  exact ⟨rfl, rfl, rfl⟩

/-- C8 (amended): when the prose surrounding a single balanced
brace-delimited five-field JSON object contains no brace characters
(and the whole reply does not itself parse), the greedy extraction
recovers exactly the object, the validator returns it, and it passes
the acceptance check; conversely any accepted value contains all five
required fields.  The extraction is greedy from the first `{` to the
last `}`, not a balanced scan, so prose containing braces can defeat
it. -/
theorem C8_amended (p1 p2 : String) (mid : List Char) (o : JsonValue)
    (h1 : lbrace ∉ p1.data) (h2 : rbrace ∉ p2.data) (h3 : lbrace ∉ p2.data)
    (hcore : pyJsonLoads (String.mk (lbrace :: mid ++ [rbrace])) = some o)
    (hwhole : pyJsonLoads (p1 ++ String.mk (lbrace :: mid ++ [rbrace]) ++ p2) = none)
    (hfive : fiveKeys.all (fun k => pyContains o k) = true) :
    extract_json_from_response (p1 ++ String.mk (lbrace :: mid ++ [rbrace]) ++ p2) =
      some o ∧
    (pyTruthyJson o && fiveKeys.all (fun k => pyContains o k)) = true ∧
    ∀ v : JsonValue, (pyTruthyJson v && fiveKeys.all (fun k => pyContains v k)) = true →
      ∀ k ∈ fiveKeys, pyContains v k = true := by
  refine ⟨?_, ?_, ?_⟩
  · have hne : (p1 ++ String.mk (lbrace :: mid ++ [rbrace]) ++ p2) ≠ "" := by
      intro h
      have hdat : (p1 ++ String.mk (lbrace :: mid ++ [rbrace]) ++ p2).data = [] := by
        rw [h]
      simp [String.data_append] at hdat
    unfold extract_json_from_response
    rw [if_neg hne]
    simp only [hwhole, braceSubstring_embed p1 p2 mid h1 h2 h3, hcore]
  · rw [hfive, pyTruthyJson_of_five hfive]
    rfl
  · intro v hv k hk
    have hall : fiveKeys.all (fun k => pyContains v k) = true := by
      simp only [Bool.and_eq_true] at hv
      exact hv.2
    rw [List.all_eq_true] at hall
    exact hall k hk

set_option maxRecDepth 8192 in
/-- C8 (witness): the amended statement instantiated on a concrete
five-field object wrapped in brace-free prose. -/
theorem C8_witness :
    extract_json_from_response (proseBefore ++ String.mk (lbrace :: coreMid ++ [rbrace]) ++
      proseAfter) = some fiveObj ∧
    (pyTruthyJson fiveObj && fiveKeys.all (fun k => pyContains fiveObj k)) = true ∧
    ∀ v : JsonValue, (pyTruthyJson v && fiveKeys.all (fun k => pyContains v k)) = true →
      ∀ k ∈ fiveKeys, pyContains v k = true :=
  C8_amended proseBefore proseAfter coreMid fiveObj (by decide) (by decide) (by decide)
    rfl rfl rfl

/-- C10 (counterexample): a 2xx envelope whose `result` field is a
string containing `response` as a substring makes
`call_cloudflare_api` subscript a string with a string key — a
`TypeError` that is not a `RequestException` and therefore propagates to
the caller, refuting the never-propagates claim. -/
theorem C10_counterexample :
    call_cloudflare_api (.ok badEnvelope) =
      .error "TypeError: string indices must be integers" := rfl

/-- C10 (amended): every HTTP-level failure — connection error, timeout,
non-2xx status, undecodable body — yields `None` without raising, an
envelope lacking both reply fields yields `None`, and a well-formed
envelope yields its reply; only a pathological 2xx envelope whose
`result` (or top-level `response`) probe hits a string value can raise a
`TypeError` out of the function. -/
theorem C10_amended :
    (∀ s, call_cloudflare_api (.httpError s) = .ok none) ∧
    (∀ d, call_cloudflare_api (.connectionError d) = .ok none) ∧
    call_cloudflare_api .timeout = .ok none ∧
    call_cloudflare_api .badJsonBody = .ok none ∧
    (∀ kvs : List (String × JsonValue),
      kvs.find? (fun p => p.1 == "result") = none →
      kvs.find? (fun p => p.1 == "response") = none →
      call_cloudflare_api (.ok (.obj kvs)) = .ok none) ∧
    (∀ (kvs inner : List (String × JsonValue)) (v : JsonValue),
      kvs.find? (fun p => p.1 == "result") = some ("result", .obj inner) →
      inner.find? (fun p => p.1 == "response") = some ("response", v) →
      call_cloudflare_api (.ok (.obj kvs)) = .ok (some v)) := by
  refine ⟨fun s => rfl, fun d => rfl, rfl, rfl, ?_, ?_⟩
  · intro kvs h1 h2
    have hall1 := List.find?_eq_none.mp h1
    have hall2 := List.find?_eq_none.mp h2
    have hc1 : ¬ (pyContains (JsonValue.obj kvs) "result" = true) := by
      simp only [pyContains, List.any_eq_true]
      rintro ⟨x, hx, hpx⟩
      exact hall1 x hx hpx
    have hc2 : ¬ (pyContains (JsonValue.obj kvs) "response" = true) := by
      simp only [pyContains, List.any_eq_true]
      rintro ⟨x, hx, hpx⟩
      exact hall2 x hx hpx
    unfold call_cloudflare_api
    dsimp only
    rw [if_neg hc1, if_neg hc2]
  · intro kvs inner v h1 h2
    have hc1 : pyContains (JsonValue.obj kvs) "result" = true := by
      simp only [pyContains, List.any_eq_true]
      refine ⟨("result", JsonValue.obj inner), List.mem_of_find?_eq_some h1, ?_⟩
      have hp := List.find?_some h1
      simpa using hp
    have hc2 : pyContains (JsonValue.obj inner) "response" = true := by
      simp only [pyContains, List.any_eq_true]
      refine ⟨("response", v), List.mem_of_find?_eq_some h2, ?_⟩
      have hp := List.find?_some h2
      simpa using hp
    unfold call_cloudflare_api
    dsimp only
    rw [if_pos hc1]
    simp only [pySubscript, h1, h2]
    rw [if_pos hc2]

/-- C10 (witness): the amended statement's envelope clauses instantiated
on concrete envelopes. -/
theorem C10_witness :
    call_cloudflare_api (.ok (.obj [("other", .str "x")])) = .ok none ∧
    call_cloudflare_api
      (.ok (.obj [("result", .obj [("response", .str "hi")])])) =
      .ok (some (.str "hi")) :=
  ⟨C10_amended.2.2.2.2.1 [("other", .str "x")] rfl rfl,
   C10_amended.2.2.2.2.2 [("result", .obj [("response", .str "hi")])]
     [("response", .str "hi")] (.str "hi") rfl rfl⟩

/-- C2 (witness): the amended statement instantiated on the two-record
input with reversed completion order. -/
theorem C2_witness :
    (process_all_items [itemA, itemB] resultsAB [1, 0]).Perm
      (pointwiseResults [itemA, itemB] resultsAB) ∧
    ([1, 0] = List.range ([itemA, itemB] : List Item).length →
      process_all_items [itemA, itemB] resultsAB [1, 0] =
        pointwiseResults [itemA, itemB] resultsAB) :=
  C2_amended [itemA, itemB] resultsAB [1, 0] (by decide)

end Enhance
